import Mathlib

/-!
Verification of the resource/collection runtime of `stormpath/resources/base.py`.

Strings are embedded as lists of Unicode code points (`List Nat`), which is
exactly how Python treats `str` values for the purposes of this module;
`pyStr` converts a Lean string literal to that representation.  Python `dict`
objects are embedded as association lists with in-place update semantics
(`insertA`), matching insertion-order preservation of Python dicts.  The
external data store (`get_resource` etc.) is a parameter of every operation
that calls out, and each operation returns the number of fetch calls it
issued, so fetch-counting properties can be stated directly.
-/

namespace Stormpath

/-- Code of the underscore character. -/
def usc : Nat := 95

/-- Convert a Lean string literal to the code-point embedding of a Python str. -/
def pyStr (s : String) : List Nat := s.data.map Char.toNat

/-- Python `c.lower()` restricted to ASCII, which is all this module feeds it:
uppercase ASCII letters map down by 32, everything else is unchanged. -/
def pyLowerChar (c : Nat) : Nat := if 65 ≤ c ∧ c ≤ 90 then c + 32 else c

/-- Python `c.upper()` restricted to ASCII: lowercase ASCII letters map up. -/
def pyUpperChar (c : Nat) : Nat := if 97 ≤ c ∧ c ≤ 122 then c - 32 else c

/-- ASCII letters are the cased/alphabetic characters `str.title` groups into
words; digits and underscores are not cased. -/
def isCasedChar (c : Nat) : Bool := (65 ≤ c && c ≤ 90) || (97 ≤ c && c ≤ 122)

/-- Model of Python `str.title`: the first cased character of every run of
cased characters is uppercased, later ones are lowercased; non-cased
characters (digits, underscores) pass through and end the current word.
The boolean argument records whether the previous character was cased. -/
def pyTitleAux : List Nat → Bool → List Nat
  | [], _ => []
  | c :: cs, prev =>
    if isCasedChar c then
      (if prev then pyLowerChar c else pyUpperChar c) :: pyTitleAux cs true
    else
      c :: pyTitleAux cs false

/-- Python `s.title()`. -/
def pyTitle (s : List Nat) : List Nat := pyTitleAux s false

/-- Python `s.replace('_', '')`. -/
def removeUnderscores (s : List Nat) : List Nat := s.filter (fun c => c ≠ usc)

/-- Python `name.split('_', 1)`: `none` when there is no underscore, otherwise
the part before the first underscore and the part after it. -/
def splitFirstUnderscore : List Nat → Option (List Nat × List Nat)
  | [] => none
  | c :: cs =>
    if c = usc then some ([], cs)
    else
      match splitFirstUnderscore cs with
      | none => none
      | some (h, t) => some (c :: h, t)

namespace Resource

/-- `Resource.to_camel_case`: if the name has no underscore it is returned
unchanged; otherwise it is split at the first underscore, the tail is passed
through `str.title` and stripped of underscores, and the head is re-attached. -/
def to_camel_case (s : List Nat) : List Nat :=
  match splitFirstUnderscore s with
  | none => s
  | some (h, t) => h ++ removeUnderscores (pyTitle t)

/-- `Resource.from_camel_case`: every character whose `lower()` differs from
itself (an uppercase letter) becomes underscore + lowercase; every other
character is kept. -/
def from_camel_case : List Nat → List Nat
  | [] => []
  | c :: cs =>
    (if pyLowerChar c = c then [c] else [usc, pyLowerChar c]) ++ from_camel_case cs

end Resource

/-- The spec's description of `to_local` as amended: every ASCII uppercase
character — including a leading one — becomes underscore + lowercase, and
every other character passes through unchanged. -/
def from_camel_case_spec : List Nat → List Nat
  | [] => []
  | c :: cs =>
    (if 65 ≤ c ∧ c ≤ 90 then [usc, c + 32] else [c]) ++ from_camel_case_spec cs

/-- `c` is an ASCII lowercase letter. -/
def isLowerAlpha (c : Nat) : Bool := 97 ≤ c && c ≤ 122

/-- The first character exists and is a lowercase ASCII letter. -/
def firstLower : List Nat → Bool
  | [] => false
  | c :: _ => isLowerAlpha c

/-- Identifiers for which the (amended) round-trip law holds: every character
is a lowercase ASCII letter or an underscore, and every underscore is
immediately followed by a lowercase letter. -/
def goodIdent : List Nat → Bool
  | [] => true
  | c :: cs => (if c = usc then firstLower cs else isLowerAlpha c) && goodIdent cs

example : Resource.to_camel_case (pyStr "given_name") = pyStr "givenName" := by decide
example : Resource.from_camel_case (pyStr "givenName") = pyStr "given_name" := by decide
example : Resource.to_camel_case (pyStr "a_2") = pyStr "a2" := by decide
example : Resource.from_camel_case (pyStr "a2") = pyStr "a2" := by decide
example : Resource.from_camel_case (pyStr "Ab") = pyStr "_ab" := by decide
example : Resource.to_camel_case (pyStr "a__b") = pyStr "aB" := by decide
example : Resource.to_camel_case (pyStr "a_b2c") = pyStr "aB2C" := by decide
example : goodIdent (pyStr "given_name") = true := by decide
example : goodIdent (pyStr "a_2") = false := by decide

theorem isLowerAlpha_spec {c : Nat} (h : isLowerAlpha c = true) : 97 ≤ c ∧ c ≤ 122 := by
  simpa [isLowerAlpha] using h

theorem pyLowerChar_of_lower {c : Nat} (h : isLowerAlpha c = true) : pyLowerChar c = c := by
  have := isLowerAlpha_spec h
  simp only [pyLowerChar]
  rw [if_neg]
  omega

theorem isCasedChar_of_lower {c : Nat} (h : isLowerAlpha c = true) : isCasedChar c = true := by
  have := isLowerAlpha_spec h
  simp [isCasedChar]
  omega

theorem lower_ne_usc {c : Nat} (h : isLowerAlpha c = true) : c ≠ usc := by
  have := isLowerAlpha_spec h
  simp [usc]
  omega

theorem pyUpperChar_of_lower {c : Nat} (h : isLowerAlpha c = true) :
    65 ≤ pyUpperChar c ∧ pyUpperChar c ≤ 90 ∧ pyUpperChar c = c - 32 := by
  have := isLowerAlpha_spec h
  simp only [pyUpperChar]
  rw [if_pos]
  · omega
  · omega

theorem pyLowerChar_pyUpperChar {c : Nat} (h : isLowerAlpha c = true) :
    pyLowerChar (pyUpperChar c) = c := by
  have h1 := isLowerAlpha_spec h
  have h2 := pyUpperChar_of_lower h
  simp only [pyLowerChar]
  rw [if_pos]
  · omega
  · omega

theorem fcc_append (a b : List Nat) :
    Resource.from_camel_case (a ++ b) =
      Resource.from_camel_case a ++ Resource.from_camel_case b := by
  induction a with
  | nil => rfl
  | cons c cs ih => simp [Resource.from_camel_case, ih]

theorem goodIdent_cons {c : Nat} {cs : List Nat} (h : goodIdent (c :: cs) = true) :
    (if c = usc then firstLower cs else isLowerAlpha c) = true ∧ goodIdent cs = true := by
  simpa [goodIdent] using h

/-- Core of the amended round-trip law: the tail handed to `str.title` comes
back through `from_camel_case` unchanged when the preceding character was
cased (first component), and gains exactly the leading underscore that was
consumed by `split` when the preceding character was a word boundary
(second component). -/
theorem fcc_title_roundtrip (cs : List Nat) (h : goodIdent cs = true) :
    Resource.from_camel_case (removeUnderscores (pyTitleAux cs true)) = cs ∧
    (firstLower cs = true →
      Resource.from_camel_case (removeUnderscores (pyTitleAux cs false)) = usc :: cs) := by
  induction cs with
  | nil =>
    constructor
    · rfl
    · intro hf
      simp [firstLower] at hf
  | cons c cs ih =>
    obtain ⟨hc, hcs⟩ := goodIdent_cons h
    obtain ⟨ih1, ih2⟩ := ih hcs
    by_cases hu : c = usc
    · subst hu
      rw [if_pos rfl] at hc
      constructor
      · show Resource.from_camel_case (removeUnderscores (pyTitleAux (usc :: cs) true)) = usc :: cs
        have hcase : isCasedChar usc = false := by decide
        simp only [pyTitleAux, hcase, Bool.false_eq_true, if_false]
        simp only [removeUnderscores, List.filter]
        have : (usc ≠ usc : Bool) = false := by decide
        rw [this]
        exact ih2 hc
      · intro hf
        simp [firstLower, isLowerAlpha, usc] at hf
    · rw [if_neg hu] at hc
      have hlc := pyLowerChar_of_lower hc
      have hcase := isCasedChar_of_lower hc
      have hne := lower_ne_usc hc
      constructor
      · simp only [pyTitleAux, hcase, if_true, if_pos rfl]
        simp only [removeUnderscores, List.filter, decide_not]
        rw [hlc]
        have : (decide (c = usc)) = false := by simp [hne]
        rw [this]
        simp only [Bool.not_false]
        show Resource.from_camel_case
            (c :: List.filter (fun c => !decide (c = usc)) (pyTitleAux cs true)) = c :: cs
        simp only [Resource.from_camel_case, hlc, if_pos rfl]
        have : List.filter (fun c => !decide (c = usc)) (pyTitleAux cs true) =
            removeUnderscores (pyTitleAux cs true) := by
          simp [removeUnderscores, decide_not]
        rw [this]
        simp [ih1]
      · intro _
        obtain ⟨hu1, hu2, hu3⟩ := pyUpperChar_of_lower hc
        simp only [pyTitleAux, hcase, if_true]
        rw [if_neg (by simp)]
        simp only [removeUnderscores, List.filter, decide_not]
        have hne' : (decide (pyUpperChar c = usc)) = false := by
          simp [usc]
          omega
        rw [hne']
        simp only [Bool.not_false]
        show Resource.from_camel_case
            (pyUpperChar c :: List.filter (fun c => !decide (c = usc)) (pyTitleAux cs true)) =
          usc :: c :: cs
        simp only [Resource.from_camel_case]
        rw [if_neg (by rw [pyLowerChar_pyUpperChar hc]; omega)]
        rw [pyLowerChar_pyUpperChar hc]
        have : List.filter (fun c => !decide (c = usc)) (pyTitleAux cs true) =
            removeUnderscores (pyTitleAux cs true) := by
          simp [removeUnderscores, decide_not]
        rw [this]
        simp [ih1]

theorem fcc_id_of_no_usc (s : List Nat) (hg : goodIdent s = true)
    (hs : splitFirstUnderscore s = none) : Resource.from_camel_case s = s := by
  induction s with
  | nil => rfl
  | cons c cs ih =>
    obtain ⟨hc, hcs⟩ := goodIdent_cons hg
    by_cases hu : c = usc
    · subst hu
      simp [splitFirstUnderscore] at hs
    · rw [if_neg hu] at hc
      simp only [splitFirstUnderscore, if_neg hu] at hs
      have hs' : splitFirstUnderscore cs = none := by
        cases h' : splitFirstUnderscore cs with
        | none => rfl
        | some p => rw [h'] at hs; cases hs
      simp only [Resource.from_camel_case, pyLowerChar_of_lower hc, if_pos rfl]
      simp [ih hcs hs']

theorem splitFirstUnderscore_usc (cs : List Nat) :
    splitFirstUnderscore (usc :: cs) = some ([], cs) := by
  simp [splitFirstUnderscore]

/-- The amended round-trip law over `goodIdent` identifiers. -/
theorem roundtrip_goodIdent (s : List Nat) (h : goodIdent s = true) :
    Resource.from_camel_case (Resource.to_camel_case s) = s := by
  induction s with
  | nil => rfl
  | cons c cs ih =>
    obtain ⟨hc, hcs⟩ := goodIdent_cons h
    by_cases hu : c = usc
    · subst hu
      rw [if_pos rfl] at hc
      simp only [Resource.to_camel_case, splitFirstUnderscore_usc]
      rw [List.nil_append]
      exact (fcc_title_roundtrip cs hcs).2 hc
    · rw [if_neg hu] at hc
      simp only [Resource.to_camel_case, splitFirstUnderscore, if_neg hu]
      cases hsp : splitFirstUnderscore cs with
      | none =>
        exact fcc_id_of_no_usc (c :: cs) h
          (by simp only [splitFirstUnderscore, if_neg hu, hsp])
      | some p =>
        obtain ⟨hd, tl⟩ := p
        have htail := ih hcs
        simp only [Resource.to_camel_case, hsp] at htail
        show Resource.from_camel_case (c :: (hd ++ removeUnderscores (pyTitle tl))) = c :: cs
        simp only [Resource.from_camel_case, pyLowerChar_of_lower hc, if_pos rfl]
        simp [htail]

/-! ## Values and dictionaries

`V` embeds both the wire-format JSON values returned by the data store
(null, numbers, strings, objects, arrays) and the values a `Resource` keeps
in its `__dict__` after `_set_properties` ran: a generic lazily-loaded
`Resource` built from an `href` (`vres`, carrying its `__dict__`), a nested
resource built by `_wrap_resource_attr` from a declared attribute
(`vwrapped`, carrying the target class name and the raw properties — its
recursive materialization is schema configuration outside this model), the
result of `dateutil.parser.parse` (`vparsed`, kept symbolic), and a marker
for the `TypeError`/`ValueError` paths (`vtyperr`).  Python dicts are
association lists: `insertA` updates an existing key in place or appends,
exactly the insertion-order semantics of `dict`. -/

inductive V where
  | vnull : V
  | vnat : Nat → V
  | vstr : List Nat → V
  | vmap : List (List Nat × V) → V
  | vlist : List V → V
  | vres : List (List Nat × V) → V
  | vwrapped : List Nat → V → V
  | vparsed : V → V
  | vtyperr : V

def lookupA {α : Type} : List (List Nat × α) → List Nat → Option α
  | [], _ => none
  | (k', v) :: t, k => if k' = k then some v else lookupA t k

def insertA {α : Type} : List (List Nat × α) → List Nat → α → List (List Nat × α)
  | [], k, v => [(k, v)]
  | (k', v') :: t, k, v => if k' = k then (k, v) :: t else (k', v') :: insertA t k v

def removeA {α : Type} : List (List Nat × α) → List Nat → List (List Nat × α)
  | [], _ => []
  | (k', v') :: t, k => if k' = k then t else (k', v') :: removeA t k

def hasKeyA {α : Type} (d : List (List Nat × α)) (k : List Nat) : Bool :=
  (lookupA d k).isSome

def hrefKey : List Nat := pyStr "href"
def itemsKey : List Nat := pyStr "items"
def offsetKey : List Nat := pyStr "offset"
def limitKey : List Nat := pyStr "limit"
def sizeKey : List Nat := pyStr "size"
def statusKey : List Nat := pyStr "status"
def slicedKey : List Nat := pyStr "_sliced_size"
def createdKey : List Nat := pyStr "created_at"
def modifiedKey : List Nat := pyStr "modified_at"
def modifiedAtWire : List Nat := pyStr "modifiedAt"
def expandKey : List Nat := pyStr "expand"

/-- `Resource._wrap_resource_attr(cls, value)`: an existing `Resource`
instance passes through, a dict becomes `cls(client, properties=value)`,
`None` stays `None`, anything else is a `TypeError`. -/
def wrap_resource_attr (cls : List Nat) : V → V
  | .vres d => .vres d
  | .vwrapped c v => .vwrapped c v
  | .vmap m => .vwrapped cls (.vmap m)
  | .vnull => .vnull
  | _ => .vtyperr

/-- The conversion `Resource._set_properties` applies to one incoming value
whose local (snake-case) name is `name`: a name declared in
`get_resource_attributes()` is wrapped into its declared class; otherwise a
mapping containing `'href'` becomes a generic lazy `Resource` around that
href (`Resource(self._client, href=value['href'])`, whose `__init__` stores
just `{'href': h}`; a non-string href raises there, marked `vtyperr`);
otherwise the two timestamp names are parsed; everything else is stored
raw. -/
def convertValue (rattrs : List (List Nat × List Nat)) (name : List Nat) (v : V) : V :=
  match lookupA rattrs name with
  | some cls => wrap_resource_attr cls v
  | none =>
    match v with
    | .vmap m =>
      match lookupA m hrefKey with
      | some (.vstr h) => .vres [(hrefKey, .vstr h)]
      | some _ => .vtyperr
      | none =>
        if name = createdKey ∨ name = modifiedKey then .vparsed (.vmap m) else .vmap m
    | _ => if name = createdKey ∨ name = modifiedKey then .vparsed v else v

/-- `Resource._set_properties`: every wire key is converted to its local
name, its value converted, and stored into `__dict__` (merging). -/
def set_properties (rattrs : List (List Nat × List Nat))
    (d : List (List Nat × V)) (props : List (List Nat × V)) : List (List Nat × V) :=
  props.foldl (fun d kv =>
    insertA d (Resource.from_camel_case kv.1)
      (convertValue rattrs (Resource.from_camel_case kv.1) kv.2)) d

/-- `CollectionResource._set_properties`: pops `items` out of the payload,
delegates the rest to the base merge, then stores the wrapped item list. -/
def cset_properties (cls : List Nat) (rattrs : List (List Nat × List Nat))
    (d : List (List Nat × V)) (props : List (List Nat × V)) : List (List Nat × V) :=
  let itemsV := lookupA props itemsKey
  let rest := removeA props itemsKey
  let d1 := set_properties rattrs d rest
  match itemsV with
  | none => d1
  | some .vnull => d1
  | some (.vlist its) => insertA d1 itemsKey (.vlist (its.map (wrap_resource_attr cls)))
  | some _ => insertA d1 itemsKey .vtyperr

/-! ## Resource state and operations

An `RState` is the `__dict__` of a resource plus the underscore-prefixed
bookkeeping fields `_query` and `_expand` (the `Expansion.get_params()`
result is kept as an opaque parameter value since no claim inspects it),
the class's `get_resource_attributes()` table, and — for collections —
the element class `resource_class` (`none` for a plain `Resource`).  The
data store is a function from href and optional params to a wire property
map; every calling operation also returns how many fetch calls it made. -/

structure RState where
  dict : List (List Nat × V)
  query : Option (List (List Nat × V))
  expand : Option V
  rattrs : List (List Nat × List Nat)
  elemCls : Option (List Nat)

abbrev Store := List Nat → Option (List (List Nat × V)) → List (List Nat × V)

/-- `_set_properties` dispatch: collections use the overridden version. -/
def set_props (r : RState) (d : List (List Nat × V)) (props : List (List Nat × V)) :
    List (List Nat × V) :=
  match r.elemCls with
  | none => set_properties r.rattrs d props
  | some cls => cset_properties cls r.rattrs d props

/-- `Resource.is_new`: `self.href is None`; `self.href` reads
`__dict__.get('href')`, which is `None` when absent or stored as `None`. -/
def is_new (r : RState) : Bool :=
  match lookupA r.dict hrefKey with
  | none => true
  | some .vnull => true
  | some _ => false

/-- The string `self.href` used as the fetch locator. -/
def hrefStr (r : RState) : List Nat :=
  match lookupA r.dict hrefKey with
  | some (.vstr h) => h
  | _ => []

/-- The fetch parameters `Resource._ensure_data` builds: the active query if
truthy (non-`None`, non-empty), then the expansion, then — when both
`limit` and `offset` are in `__dict__` — those recorded values; `None`
when nothing accumulated. -/
def build_params (r : RState) : Option (List (List Nat × V)) :=
  let p : List (List Nat × V) := []
  let p := match r.query with
    | none => p
    | some [] => p
    | some q => q.foldl (fun acc kv => insertA acc kv.1 kv.2) p
  let p := match r.expand with
    | none => p
    | some e => insertA p expandKey e
  let p := match lookupA r.dict limitKey, lookupA r.dict offsetKey with
    | some lv, some ov => insertA (insertA p limitKey lv) offsetKey ov
    | _, _ => p
  match p with
  | [] => none
  | _ => some p

/-- `Resource._ensure_data`: a no-op on a new resource, otherwise one fetch
call whose result is merged into `__dict__` — note there is no
"already materialized" guard, so every invocation that reaches the store
fetches again.  Returns the new state and the number of fetch calls. -/
def ensure_data (store : Store) (r : RState) : RState × Nat :=
  if is_new r then (r, 0)
  else
    let data := store (hrefStr r) (build_params r)
    ({ r with dict := set_props r r.dict data }, 1)

/-- A Python attribute read `r.name`: normal lookup hits `__dict__` first
(no fetch); on a miss `__getattr__` runs — `href` answers from the dict
without fetching, any other name calls `_ensure_data` and then looks up
again (`none` result = `AttributeError`). -/
def readAttr (store : Store) (r : RState) (name : List Nat) :
    RState × Option V × Nat :=
  match lookupA r.dict name with
  | some v => (r, some v, 0)
  | none =>
    if name = hrefKey then (r, some .vnull, 0)
    else
      let (r1, n) := ensure_data store r
      (r1, lookupA r1.dict name, n)

/-- `StatusMixin.get_status`: `_ensure_data` (which always fetches on a
persisted resource), then `__dict__.get('status', 'DISABLED').upper()`;
a non-string status has no `.upper` (`none` = AttributeError). -/
def get_status (store : Store) (r : RState) : RState × Option (List Nat) × Nat :=
  let (r1, n) := ensure_data store r
  match lookupA r1.dict statusKey with
  | none => (r1, some ((pyStr "DISABLED").map pyUpperChar), n)
  | some (.vstr s) => (r1, some (s.map pyUpperChar), n)
  | some _ => (r1, none, n)

/-- `DictMixin.keys`: `_ensure_data`, then the non-underscore-prefixed keys
of `__dict__` (the underscore-prefixed `_client`/`_query`/… live outside
`dict` in this model, except `_sliced_size` which the source itself plants
in `__dict__`). -/
def keysOp (store : Store) (r : RState) : RState × List (List Nat) × Nat :=
  let (r1, n) := ensure_data store r
  (r1, (r1.dict.map Prod.fst).filter (fun k => decide (k.head? ≠ some usc)), n)

inductive Event where
  | created : Event
  | updated : List Nat → Event
  | deleted : List Nat → Event

/-- Python truthiness for the values this module tests with `if value.href:`. -/
def vTruthy : V → Bool
  | .vnull => false
  | .vstr s => !s.isEmpty
  | .vnat n => decide (n ≠ 0)
  | .vmap m => !m.isEmpty
  | .vlist l => !l.isEmpty
  | _ => true

mutual

/-- `Resource._sanitize_property`: a persisted nested resource serializes to
`{'href': …}`, an unpersisted one to its own `_get_properties()` (which is
`{}` for the base writable set — concrete classes' writable sets are schema
configuration outside this model); plain mappings recurse with camel-cased
keys; everything else passes through. -/
def sanitize_property : V → V
  | .vres d =>
    let h := (lookupA d hrefKey).getD .vnull
    if vTruthy h then .vmap [(hrefKey, h)] else .vmap []
  | .vwrapped _ v =>
    let h := match v with
      | .vmap m => (lookupA m hrefKey).getD .vnull
      | _ => .vnull
    if vTruthy h then .vmap [(hrefKey, h)] else .vmap []
  | .vmap m => .vmap (sanitize_entries m)
  | v => v

def sanitize_entries : List (List Nat × V) → List (List Nat × V)
  | [] => []
  | (k, v) :: t => (Resource.to_camel_case k, sanitize_property v) :: sanitize_entries t

end

/-- `Resource._get_properties`: the writable attributes of `__dict__`,
camel-cased and sanitized. -/
def get_properties (writable : List (List Nat)) (r : RState) : List (List Nat × V) :=
  r.dict.foldl (fun acc kv =>
    if kv.1 ∈ writable then
      insertA acc (Resource.to_camel_case kv.1) (sanitize_property kv.2)
    else acc) []

/-- `SaveMixin.save`: raises `ValueError` (the invalid-state error, result
`none`) on a new resource before any call-out; otherwise one update call,
a `resource-updated` event, and a merge of the returned `modifiedAt`
(`hasattr(self, 'modified_at')` goes through normal attribute lookup, so it
can itself fetch).  Returns (state or error, update calls, fetch calls,
events). -/
def save (store : Store)
    (update : List Nat → List (List Nat × V) → List (List Nat × V))
    (writable : List (List Nat)) (r : RState) :
    Option RState × Nat × Nat × List Event :=
  if is_new r then (none, 0, 0, [])
  else
    let props := get_properties writable r
    let data := update (hrefStr r) props
    let evs := [Event.updated (hrefStr r)]
    let (r1, hv, n) := readAttr store r modifiedKey
    let mv : V := .vparsed ((lookupA data modifiedAtWire).getD .vnull)
    if hv.isSome && hasKeyA data modifiedAtWire then
      (some { r1 with dict := insertA r1.dict modifiedKey mv }, 1, n, evs)
    else
      (some r1, 1, n, evs)

/-- `DeleteMixin.delete`: a silent no-op on a new resource (no delete
call-out, no event); otherwise one delete call and a `resource-deleted`
event.  The local state is never modified.  Returns (delete calls, events). -/
def deleteOp (r : RState) : Nat × List Event :=
  if is_new r then (0, [])
  else (1, [Event.deleted (hrefStr r)])

/-! ## Collection operations -/

/-- `self.__dict__['items']` as a list (the source raises `KeyError` when it
is absent and `TypeError` when it is not a list; both are unreachable in the
scenarios the claims quantify over). -/
def itemsList (r : RState) : List V :=
  match lookupA r.dict itemsKey with
  | some (.vlist l) => l
  | _ => []

/-- A numeric `__dict__` entry (the source raises when it is absent or not
an integer; unreachable in the modeled scenarios). -/
def natAttr (r : RState) (k : List Nat) : Nat :=
  match lookupA r.dict k with
  | some (.vnat n) => n
  | _ => 0

/-- `CollectionResource._get_next_page(offset, limit)`: returns `[]` without
fetching when the active query pins an explicit `offset`/`limit` or when
`offset ≥ size`; otherwise one fetch of the page `[offset, offset+limit)`,
whose wrapped items are appended to `__dict__['items']` while the recorded
`limit` grows by their count. -/
def get_next_page (store : Store) (r : RState) (offset limit : Nat) :
    List V × RState × Nat :=
  let params := r.query.getD []
  if hasKeyA params offsetKey || hasKeyA params limitKey then ([], r, 0)
  else if natAttr r sizeKey ≤ offset then ([], r, 0)
  else
    let params := insertA (insertA params offsetKey (.vnat offset)) limitKey (.vnat limit)
    let data := store (hrefStr r) (some params)
    let raw := match lookupA data itemsKey with
      | some (.vlist l) => l
      | _ => []
    let its := raw.map (wrap_resource_attr (r.elemCls.getD []))
    let d1 := insertA r.dict itemsKey (.vlist (itemsList r ++ its))
    let d2 := insertA d1 limitKey (.vnat (natAttr r limitKey + its.length))
    (its, { r with dict := d2 }, 1)

/-- The `while` loop of `CollectionResource.__iter__`, parameterized by fuel:
yield the current window, stop if it was shorter than the captured `limit`,
otherwise advance `offset` by the window length and fetch the next page.
The Python loop terminates because pages are only fetched while
`offset < size` and `offset` grows by at least one per non-empty window, so
`size + 2` iterations always suffice; `iterPass` supplies that fuel. -/
def iterLoop (store : Store) :
    Nat → RState → List V → Nat → Nat → List V × RState × Nat
  | 0, r, _, _, _ => ([], r, 0)
  | fuel + 1, r, items, offset, limit =>
    if items.isEmpty then ([], r, 0)
    else if items.length < limit then (items, r, 0)
    else
      let offset' := offset + items.length
      let (its, r1, n1) := get_next_page store r offset' limit
      let (ys, r2, n2) := iterLoop store fuel r1 its offset' limit
      (items ++ ys, r2, n1 + n2)

/-- One full pass of `CollectionResource.__iter__`: `_ensure_data` (which
always fetches on a persisted collection), capture `items`/`offset`/`limit`
from `__dict__`, run the paging loop, and finally write the captured
`limit` back into `__dict__`.  Returns (yielded elements, final state,
fetch calls). -/
def iterPass (store : Store) (r : RState) : List V × RState × Nat :=
  let (r1, n0) := ensure_data store r
  let items := itemsList r1
  let offset := natAttr r1 offsetKey
  let limit := natAttr r1 limitKey
  let (ys, r2, n1) := iterLoop store (natAttr r1 sizeKey + 2) r1 items offset limit
  (ys, { r2 with dict := insertA r2.dict limitKey (.vnat limit) }, n0 + n1)

/-- `CollectionResource.__len__`: `_ensure_data`, then
`self.__dict__.get('_sliced_size', self.size)` — the default argument
`self.size` is evaluated eagerly (a normal attribute read, which can itself
fetch when `size` is absent).  Returns (length, state, fetch calls). -/
def lenOp (store : Store) (r : RState) : Nat × RState × Nat :=
  let (r1, n1) := ensure_data store r
  let (r2, szv, n2) := readAttr store r1 sizeKey
  let sz := match szv with | some (.vnat n) => n | _ => 0
  match lookupA r2.dict slicedKey with
  | some (.vnat s) => (s, r2, n1 + n2)
  | some _ => (0, r2, n1 + n2)
  | none => (sz, r2, n1 + n2)

/-- `CollectionResource.__getitem__` with an integer index: `_ensure_data`,
then a plain index into the loaded window (`none` = IndexError). -/
def getIndex (store : Store) (r : RState) (i : Nat) : Option V × RState × Nat :=
  let (r1, n) := ensure_data store r
  ((itemsList r1)[i]?, r1, n)

/-- `CollectionResource.query(**kwargs)`: `q = self._query or {}` aliases the
receiver's own `_query` whenever that is truthy (non-`None` and non-empty),
so `q.update(kwargs)` then mutates the receiver in place; a `None` or empty
`_query` gives a fresh dict and the receiver keeps its value.  The returned
instance is `self.__class__(self._client, self.href, query=camelized)`.
Returns (new instance, receiver after the call). -/
def queryOp (r : RState) (kwargs : List (List Nat × V)) : RState × RState :=
  let base := r.query.getD []
  let updated := kwargs.foldl (fun q kv => insertA q kv.1 kv.2) base
  let receiver := match r.query with
    | none => r
    | some [] => r
    | some _ => { r with query := some updated }
  let camel := updated.foldl (fun acc kv => insertA acc (Resource.to_camel_case kv.1) kv.2) []
  let fresh : RState :=
    { dict := (match r.elemCls with
        | none => set_properties r.rattrs [] [(hrefKey, .vstr (hrefStr r))]
        | some cls => cset_properties cls r.rattrs [] [(hrefKey, .vstr (hrefStr r))])
      query := some camel
      expand := none
      rattrs := r.rattrs
      elemCls := r.elemCls }
  (fresh, receiver)

/-- `CollectionResource.__getitem__` with a slice `[start:stop]`:
`start = idx.start or 0`, `stop = idx.stop or 0`; the derived query pins
`offset = start` and, only when `stop` is truthy and greater than `start`,
`limit = stop - start`; then
`r.__dict__['_sliced_size'] = min(query.get('limit', r.size), max(0, r.size - query['offset']))`
— the `dict.get` default `r.size` is evaluated eagerly, so the fresh
instance materializes here (one fetch); the second `r.size` read then hits
the populated dict.  Nat subtraction is exactly `max(0, ·-·)`.
Returns (slice view, receiver after `query`, fetch calls). -/
def getSlice (store : Store) (r : RState) (start? stop? : Option Nat) :
    RState × RState × Nat :=
  let start := start?.getD 0
  let stop := stop?.getD 0
  let q0 : List (List Nat × V) := [(offsetKey, .vnat start)]
  let q := if stop ≠ 0 ∧ start < stop then insertA q0 limitKey (.vnat (stop - start)) else q0
  let (r2, receiver) := queryOp r q
  let (r3, szv, n) := readAttr store r2 sizeKey
  let sz := match szv with | some (.vnat m) => m | _ => 0
  let lim := match lookupA q limitKey with | some (.vnat l) => l | _ => sz
  let sliced := min lim (sz - start)
  ({ r3 with dict := insertA r3.dict slicedKey (.vnat sliced) }, receiver, n)

/-! ## Constructors and the canonical paginated remote -/

/-- `Resource(client, href=h)`: `__init__` stores `{'href': h}` through
`_set_properties` and performs no fetch. -/
def resourceFromHref (rattrs : List (List Nat × List Nat)) (h : List Nat) : RState :=
  { dict := set_properties rattrs [] [(hrefKey, .vstr h)]
    query := none, expand := none, rattrs := rattrs, elemCls := none }

/-- `Resource(client, properties=props)`: materialized at construction. -/
def resourceFromProps (rattrs : List (List Nat × List Nat))
    (props : List (List Nat × V)) : RState :=
  { dict := set_properties rattrs [] props
    query := none, expand := none, rattrs := rattrs, elemCls := none }

/-- `CollectionResource(client, href=h)` with element class `cls`
(`get_resource_attributes()` is the base `{}`): `__init__` routes
`{'href': h}` through the overridden `_set_properties`. -/
def collectionFromHref (cls h : List Nat) : RState :=
  { dict := cset_properties cls [] [] [(hrefKey, .vstr h)]
    query := none, expand := none, rattrs := [], elemCls := some cls }

/-- The canonical remote backing a collection: an ordered list of `N`
elements served in contiguous pages.  A fetch with `offset`/`limit` params
answers with that window of `remote`, the echoed `offset`/`limit`, and the
authoritative `size = N`; a fetch without explicit params uses the API
defaults `offset = 0` and page width `L`. -/
def pageStore (remote : List V) (L : Nat) : Store := fun _ params? =>
  let o := match params? with
    | some ps => match lookupA ps offsetKey with | some (.vnat n) => n | _ => 0
    | none => 0
  let l := match params? with
    | some ps => match lookupA ps limitKey with | some (.vnat n) => n | _ => L
    | none => L
  [(offsetKey, .vnat o), (limitKey, .vnat l), (sizeKey, .vnat remote.length),
   (itemsKey, .vlist ((remote.drop o).take l))]

/-! ## Dictionary lemmas -/

theorem lookupA_insertA_self {α : Type} (d : List (List Nat × α)) (k : List Nat) (v : α) :
    lookupA (insertA d k v) k = some v := by
  induction d with
  | nil => simp [insertA, lookupA]
  | cons kv t ih =>
    obtain ⟨k', v'⟩ := kv
    by_cases h : k' = k
    · simp [insertA, h, lookupA]
    · simp [insertA, h, lookupA, ih]

theorem lookupA_insertA_ne {α : Type} (d : List (List Nat × α)) (k k' : List Nat) (v : α)
    (h : k ≠ k') : lookupA (insertA d k v) k' = lookupA d k' := by
  induction d with
  | nil => simp [insertA, lookupA, h]
  | cons kv t ih =>
    obtain ⟨k₀, v₀⟩ := kv
    by_cases h0 : k₀ = k
    · subst h0
      simp [insertA, lookupA, h]
    · simp [insertA, h0, lookupA, ih]

/-! ## Claim C5: the snake/camel round-trip -/

/-- Claim C5 as stated is false: Python `str.title` treats digits as word
boundaries, so a digit after (or soon after) an underscore breaks the
round-trip (`"a_2" → "a2" → "a2"`, `"a_b2c" → "aB2C" → "a_b2_c"`); a
doubled or trailing underscore is collapsed as well (`"a__b" → "aB" →
"a_b"`, `"a_" → "a" → "a"`).  All four inputs consist only of lowercase
letters, digits, and underscores. -/
theorem C5_counterexample :
    Resource.from_camel_case (Resource.to_camel_case (pyStr "a_2")) ≠ pyStr "a_2" ∧
    Resource.from_camel_case (Resource.to_camel_case (pyStr "a_b2c")) ≠ pyStr "a_b2c" ∧
    Resource.from_camel_case (Resource.to_camel_case (pyStr "a__b")) ≠ pyStr "a__b" ∧
    Resource.from_camel_case (Resource.to_camel_case (pyStr "a_")) ≠ pyStr "a_" := by
  decide

/-- Claim C5 (amended): the round-trip
`from_camel_case (to_camel_case x) = x` holds for every identifier made of
lowercase ASCII letters and underscores in which every underscore is
immediately followed by a lowercase letter. -/
theorem C5_roundtrip (s : List Nat) (h : goodIdent s = true) :
    Resource.from_camel_case (Resource.to_camel_case s) = s :=
  roundtrip_goodIdent s h

/-- Witness for `C5_roundtrip` at the identifier `"given_name"`. -/
theorem C5_roundtrip_witness :
    goodIdent (pyStr "given_name") = true ∧
    Resource.from_camel_case (Resource.to_camel_case (pyStr "given_name")) =
      pyStr "given_name" :=
  ⟨by decide, C5_roundtrip (pyStr "given_name") (by decide)⟩

/-! ## Claim C6: camelCase → snake_case conversion -/

/-- Claim C6 as stated is false: `from_camel_case` does not preserve a
leading uppercase character — `"Ab"` becomes `"_ab"`, not `"Ab"`. -/
theorem C6_counterexample :
    Resource.from_camel_case (pyStr "Ab") = pyStr "_ab" ∧ pyStr "_ab" ≠ pyStr "Ab" := by
  decide

/-- Claim C6 (amended): every ASCII uppercase character — internal or
leading — becomes underscore + lowercase, and every other character passes
through unchanged (`from_camel_case` agrees with the per-character spec
function everywhere). -/
theorem C6_every_uppercase (s : List Nat) :
    Resource.from_camel_case s = from_camel_case_spec s := by
  induction s with
  | nil => rfl
  | cons c cs ih =>
    simp only [Resource.from_camel_case, from_camel_case_spec, ih]
    by_cases h : 65 ≤ c ∧ c ≤ 90
    · have h1 : pyLowerChar c = c + 32 := by simp [pyLowerChar, h]
      rw [h1, if_neg (by omega), if_pos h]
    · have h1 : pyLowerChar c = c := by simp [pyLowerChar, h]
      rw [h1, if_pos rfl, if_neg h]

/-! ## Claim C7: the new-entity invariant -/

/-- Claim C7: `is_new()` holds exactly when reading the locator gives
`None`; `save()` on a new instance fails with the invalid-state error
before any update call-out or event; `delete()` on a new instance issues no
delete call-out, emits no event, and returns. -/
theorem C7_new_entity (store : Store)
    (update : List Nat → List (List Nat × V) → List (List Nat × V))
    (writable : List (List Nat)) (r : RState) :
    (is_new r = true ↔ (readAttr store r hrefKey).2.1 = some V.vnull) ∧
    (is_new r = true → save store update writable r = (none, 0, 0, [])) ∧
    (is_new r = true → deleteOp r = (0, [])) := by
  refine ⟨?_, ?_, ?_⟩
  · cases h : lookupA r.dict hrefKey with
    | none => simp [is_new, readAttr, h]
    | some v => cases v <;> simp [is_new, readAttr, h]
  · intro hn
    simp [save, hn]
  · intro hn
    simp [deleteOp, hn]

/-- Witness for `C7_new_entity` at a resource constructed from properties
without a locator. -/
theorem C7_new_entity_witness :
    is_new (resourceFromProps [] [(pyStr "name", V.vstr (pyStr "n"))]) = true ∧
    save (fun _ _ => []) (fun _ _ => []) []
      (resourceFromProps [] [(pyStr "name", V.vstr (pyStr "n"))]) = (none, 0, 0, []) ∧
    deleteOp (resourceFromProps [] [(pyStr "name", V.vstr (pyStr "n"))]) = (0, []) :=
  ⟨by rfl,
   (C7_new_entity (fun _ _ => []) (fun _ _ => []) []
     (resourceFromProps [] [(pyStr "name", V.vstr (pyStr "n"))])).2.1 (by rfl),
   (C7_new_entity (fun _ _ => []) (fun _ _ => []) []
     (resourceFromProps [] [(pyStr "name", V.vstr (pyStr "n"))])).2.2 (by rfl)⟩

/-! ## Claim C9: generic wrapping of href-bearing mappings -/

theorem fcc_hrefKey : Resource.from_camel_case hrefKey = hrefKey := by decide

theorem hrefKey_not_timestamp :
    ¬(hrefKey = createdKey ∨ hrefKey = modifiedKey) := by decide

/-- Claim C9: during `_set_properties`, an incoming attribute whose local
name is not declared becomes — when its wire value is a mapping containing
`'href'` — a generic lazy `Resource` holding exactly `{'href': h}` (the
state `Resource(client, href=h)` constructs), not the raw mapping; a
declared name is wrapped into its declared class; and a value that is
neither an href-bearing mapping nor declared (nor a timestamp) is stored
raw. -/
theorem C9_generic_wrap (rattrs : List (List Nat × List Nat)) (d : List (List Nat × V))
    (k : List Nat) (v : V) :
    (∀ m h, lookupA rattrs (Resource.from_camel_case k) = none →
       v = V.vmap m → lookupA m hrefKey = some (V.vstr h) →
       lookupA (set_properties rattrs d [(k, v)]) (Resource.from_camel_case k) =
         some (V.vres [(hrefKey, V.vstr h)]) ∧
       V.vres [(hrefKey, V.vstr h)] ≠ V.vmap m ∧
       (resourceFromHref [] h).dict = [(hrefKey, V.vstr h)]) ∧
    (∀ cls, lookupA rattrs (Resource.from_camel_case k) = some cls →
       lookupA (set_properties rattrs d [(k, v)]) (Resource.from_camel_case k) =
         some (wrap_resource_attr cls v)) ∧
    ((∀ m, v ≠ V.vmap m) → lookupA rattrs (Resource.from_camel_case k) = none →
       Resource.from_camel_case k ≠ createdKey → Resource.from_camel_case k ≠ modifiedKey →
       lookupA (set_properties rattrs d [(k, v)]) (Resource.from_camel_case k) = some v) ∧
    (∀ m, lookupA rattrs (Resource.from_camel_case k) = none →
       v = V.vmap m → lookupA m hrefKey = none →
       Resource.from_camel_case k ≠ createdKey → Resource.from_camel_case k ≠ modifiedKey →
       lookupA (set_properties rattrs d [(k, v)]) (Resource.from_camel_case k) =
         some (V.vmap m)) := by
  have hset : set_properties rattrs d [(k, v)] =
      insertA d (Resource.from_camel_case k)
        (convertValue rattrs (Resource.from_camel_case k) v) := rfl
  refine ⟨?_, ?_, ?_, ?_⟩
  · intro m h hn hv hm
    subst hv
    refine ⟨?_, by simp, ?_⟩
    · rw [hset, lookupA_insertA_self]
      simp [convertValue, hn, hm]
    · show set_properties [] [] [(hrefKey, V.vstr h)] = [(hrefKey, V.vstr h)]
      simp only [set_properties, List.foldl, fcc_hrefKey]
      simp [convertValue, lookupA, insertA, if_neg hrefKey_not_timestamp]
  · intro cls hc
    rw [hset, lookupA_insertA_self]
    simp [convertValue, hc]
  · intro hnm hn hc hm
    rw [hset, lookupA_insertA_self]
    cases v with
    | vmap m => exact absurd rfl (hnm m)
    | vnull => simp [convertValue, hn]; tauto
    | vnat n => simp [convertValue, hn]; tauto
    | vstr s => simp [convertValue, hn]; tauto
    | vlist l => simp [convertValue, hn]; tauto
    | vres dd => simp [convertValue, hn]; tauto
    | vwrapped c w => simp [convertValue, hn]; tauto
    | vparsed w => simp [convertValue, hn]; tauto
    | vtyperr => simp [convertValue, hn]; tauto
  · intro m hn hv hm hc hmm
    subst hv
    rw [hset, lookupA_insertA_self]
    simp [convertValue, hn, hm]
    tauto

/-- Witness for `C9_generic_wrap`: the undeclared wire attribute
`tenant = {'href': "u"}` is stored as a generic lazy resource. -/
theorem C9_generic_wrap_witness :
    lookupA (set_properties [] [] [(pyStr "tenant", V.vmap [(hrefKey, V.vstr (pyStr "u"))])])
        (Resource.from_camel_case (pyStr "tenant")) =
      some (V.vres [(hrefKey, V.vstr (pyStr "u"))]) :=
  ((C9_generic_wrap [] [] (pyStr "tenant")
      (V.vmap [(hrefKey, V.vstr (pyStr "u"))])).1
    [(hrefKey, V.vstr (pyStr "u"))] (pyStr "u") (by rfl) rfl (by rfl)).1

/-! ## Claim C1: laziness and fetch counting -/

/-- The `__dict__` a bare-locator construction produces. -/
theorem fromHref_dict (h : List Nat) :
    (resourceFromHref [] h).dict = [(hrefKey, V.vstr h)] := by
  show set_properties [] [] [(hrefKey, V.vstr h)] = [(hrefKey, V.vstr h)]
  simp only [set_properties, List.foldl, fcc_hrefKey]
  simp [convertValue, lookupA, insertA, if_neg hrefKey_not_timestamp]

/-- A deterministic remote used by concrete scenarios: every fetch answers
with a single `status` attribute. -/
def demoStore : Store := fun _ _ => [(statusKey, V.vstr (pyStr "enabled"))]

/-- Claim C1 as stated is false: `_ensure_data` has no already-materialized
guard, so the second `get_status()` call on the same instance issues a
second fetch — two calls make two fetch calls where the claim allows a
total of one. -/
theorem C1_counterexample :
    (get_status demoStore (resourceFromHref [] (pyStr "x"))).2.2 +
      (get_status demoStore
        (get_status demoStore (resourceFromHref [] (pyStr "x"))).1).2.2 = 2 ∧
    (2 : Nat) ≠ 1 :=
  ⟨rfl, by decide⟩

/-- Claim C1 (amended): a bare-locator resource fetches nothing while only
`href` is read; the first read of any other attribute fetches exactly once;
any later read of an attribute present in `__dict__` fetches nothing; but
every invocation that reaches `_ensure_data` on a persisted resource —
`get_status()`, `keys()`, reads of absent attributes — fetches exactly once
per call, because `_ensure_data` has no once-populated guard. -/
theorem C1_lazy (store : Store) (h name : List Nat) (hname : name ≠ hrefKey) :
    readAttr store (resourceFromHref [] h) hrefKey =
      (resourceFromHref [] h, some (V.vstr h), 0) ∧
    (readAttr store (resourceFromHref [] h) name).2.2 = 1 ∧
    (∀ r : RState, ∀ name' v, lookupA r.dict name' = some v →
       readAttr store r name' = (r, some v, 0)) ∧
    (∀ r : RState, is_new r = false → (get_status store r).2.2 = 1) ∧
    (∀ r : RState, is_new r = false → (keysOp store r).2.2 = 1) := by
  have hne : hrefKey ≠ name := fun e => hname e.symm
  have hlk : lookupA (resourceFromHref [] h).dict hrefKey = some (V.vstr h) := by
    rw [fromHref_dict]
    simp [lookupA]
  have hlkn : lookupA (resourceFromHref [] h).dict name = none := by
    rw [fromHref_dict]
    simp [lookupA, hne]
  have hnew : is_new (resourceFromHref [] h) = false := by
    unfold is_new
    rw [hlk]
  refine ⟨?_, ?_, ?_, ?_, ?_⟩
  · unfold readAttr
    rw [hlk]
  · unfold readAttr
    rw [hlkn]
    rw [if_neg hname]
    unfold ensure_data
    rw [hnew]
    rfl
  · intro r name' v hv
    unfold readAttr
    rw [hv]
  · intro r hr
    simp only [get_status, ensure_data, hr, Bool.false_eq_true, if_false]
    cases hl : lookupA (set_props r r.dict (store (hrefStr r) (build_params r))) statusKey with
    | none => rfl
    | some v => cases v <;> rfl
  · intro r hr
    simp [keysOp, ensure_data, hr]

/-- Witness for `C1_lazy` at a concrete store, locator, and attribute. -/
theorem C1_lazy_witness :
    readAttr demoStore (resourceFromHref [] (pyStr "x")) hrefKey =
      (resourceFromHref [] (pyStr "x"), some (V.vstr (pyStr "x")), 0) ∧
    (readAttr demoStore (resourceFromHref [] (pyStr "x")) statusKey).2.2 = 1 ∧
    (get_status demoStore (resourceFromHref [] (pyStr "x"))).2.2 = 1 :=
  ⟨(C1_lazy demoStore (pyStr "x") statusKey (by decide)).1,
   (C1_lazy demoStore (pyStr "x") statusKey (by decide)).2.1,
   (C1_lazy demoStore (pyStr "x") statusKey (by decide)).2.2.2.1
     (resourceFromHref [] (pyStr "x")) (by rfl)⟩

/-! ## Claim C4: the query builder -/

/-- A collection whose active `_query` is the non-empty `{'q': "t"}`. -/
def c4base : RState :=
  let base := collectionFromHref (pyStr "E") (pyStr "h")
  { base with query := some [(pyStr "q", V.vstr (pyStr "t"))] }

/-- Claim C4 as stated is false: on a receiver with a non-empty `_query`,
`q = self._query or {}` aliases the receiver's own dict and
`q.update(kwargs)` mutates it — after `query(a=1)` the receiver's `_query`
has grown from one entry to two. -/
theorem C4_counterexample :
    ((queryOp c4base [(pyStr "a", V.vnat 1)]).2.query.getD []).length = 2 ∧
    (c4base.query.getD []).length = 1 ∧
    (2 : Nat) ≠ 1 :=
  ⟨rfl, rfl, by decide⟩

/-- Claim C4 (amended): `query(**kwargs)` returns a new instance of the same
class whose query layers `kwargs` over the receiver's active query with
camel-cased keys; the receiver is left unchanged when its `_query` is
`None` or empty, but when it is non-empty the receiver's `_query` mapping
itself is updated in place with the raw `kwargs` (the aliasing through
`q = self._query or {}`). -/
theorem C4_query_builder (r : RState) (kwargs : List (List Nat × V)) :
    (queryOp r kwargs).1.query =
      some ((kwargs.foldl (fun q kv => insertA q kv.1 kv.2) (r.query.getD [])).foldl
        (fun acc kv => insertA acc (Resource.to_camel_case kv.1) kv.2) []) ∧
    (queryOp r kwargs).1.elemCls = r.elemCls ∧
    (r.query = none → (queryOp r kwargs).2 = r) ∧
    (r.query = some [] → (queryOp r kwargs).2 = r) ∧
    (∀ q, r.query = some q → q ≠ [] →
       (queryOp r kwargs).2 =
         { r with query := some (kwargs.foldl (fun q kv => insertA q kv.1 kv.2) q) }) := by
  refine ⟨rfl, rfl, ?_, ?_, ?_⟩
  · intro hq
    simp [queryOp, hq]
  · intro hq
    simp [queryOp, hq]
  · intro q hq hne
    cases q with
    | nil => exact absurd rfl hne
    | cons kv t => simp [queryOp, hq]

/-- Witness for `C4_query_builder`: the receiver of `C4_counterexample`
really ends with its `_query` updated in place. -/
theorem C4_query_builder_witness :
    (queryOp c4base [(pyStr "a", V.vnat 1)]).2 =
      { c4base with
        query := some [(pyStr "q", V.vstr (pyStr "t")), (pyStr "a", V.vnat 1)] } :=
  (C4_query_builder c4base [(pyStr "a", V.vnat 1)]).2.2.2.2
    [(pyStr "q", V.vstr (pyStr "t"))] rfl (by simp)

/-! ## Claim C3: explicit windows -/

/-- One-step unfolding of the iteration loop. -/
theorem iterLoop_succ (store : Store) (fuel : Nat) (r : RState) (items : List V)
    (off lim : Nat) :
    iterLoop store (fuel + 1) r items off lim =
      if items.isEmpty then ([], r, 0)
      else if items.length < lim then (items, r, 0)
      else
        (items ++ (iterLoop store fuel
            (get_next_page store r (off + items.length) lim).2.1
            (get_next_page store r (off + items.length) lim).1 (off + items.length) lim).1,
         (iterLoop store fuel
            (get_next_page store r (off + items.length) lim).2.1
            (get_next_page store r (off + items.length) lim).1 (off + items.length) lim).2.1,
         (get_next_page store r (off + items.length) lim).2.2 +
           (iterLoop store fuel
              (get_next_page store r (off + items.length) lim).2.1
              (get_next_page store r (off + items.length) lim).1 (off + items.length) lim).2.2) :=
  rfl

/-- A pinned query (explicit `offset` or `limit`) makes `_get_next_page`
return empty with no fetch and no state change. -/
theorem gnp_pinned (store : Store) (r : RState) (off lim : Nat)
    (hq : (hasKeyA (r.query.getD []) offsetKey || hasKeyA (r.query.getD []) limitKey) = true) :
    get_next_page store r off lim = ([], r, 0) := by
  unfold get_next_page
  rw [if_pos hq]

/-- Under a pinned query the iteration loop never fetches and never changes
the state, whatever the fuel and window. -/
theorem iterLoop_pinned (store : Store) :
    ∀ (fuel : Nat) (r : RState) (items : List V) (off lim : Nat),
      (hasKeyA (r.query.getD []) offsetKey || hasKeyA (r.query.getD []) limitKey) = true →
      (iterLoop store fuel r items off lim).2.1 = r ∧
      (iterLoop store fuel r items off lim).2.2 = 0 := by
  intro fuel
  induction fuel with
  | zero => intro r items off lim _; exact ⟨rfl, rfl⟩
  | succ fuel ih =>
    intro r items off lim hq
    rw [iterLoop_succ]
    by_cases h1 : items.isEmpty
    · rw [if_pos h1]; exact ⟨rfl, rfl⟩
    · rw [if_neg h1]
      by_cases h2 : items.length < lim
      · rw [if_pos h2]; exact ⟨rfl, rfl⟩
      · rw [if_neg h2]
        rw [gnp_pinned store r (off + items.length) lim hq]
        obtain ⟨ih1, ih2⟩ := ih r [] (off + items.length) lim hq
        exact ⟨ih1, by rw [ih2]⟩

/-- `_ensure_data` on a persisted resource: one fetch, query preserved. -/
theorem ensure_data_not_new (store : Store) (r : RState) (hnew : is_new r = false) :
    ensure_data store r =
      ({ r with dict := set_props r r.dict (store (hrefStr r) (build_params r)) }, 1) := by
  unfold ensure_data
  rw [hnew]
  rfl

/-- Claim C3 (amended): for a collection whose active query pins an explicit
`offset` or `limit`, `_get_next_page` never fetches, so each materializing
operation — a full iteration pass or an integer index — issues exactly one
fetch call (the unconditional `_ensure_data` one).  The claim's "at most one
fetch ever" fails because every such operation re-fetches. -/
theorem C3_explicit_window (store : Store) (r : RState)
    (hq : (hasKeyA (r.query.getD []) offsetKey || hasKeyA (r.query.getD []) limitKey) = true)
    (hnew : is_new r = false) :
    (∀ off lim, get_next_page store r off lim = ([], r, 0)) ∧
    (iterPass store r).2.2 = 1 ∧
    (∀ i, (getIndex store r i).2.2 = 1) := by
  refine ⟨fun off lim => gnp_pinned store r off lim hq, ?_, ?_⟩
  · unfold iterPass
    rw [ensure_data_not_new store r hnew]
    have hq1 : (hasKeyA (({ r with
        dict := set_props r r.dict (store (hrefStr r) (build_params r)) } : RState).query.getD [])
          offsetKey ||
        hasKeyA (({ r with
        dict := set_props r r.dict (store (hrefStr r) (build_params r)) } : RState).query.getD [])
          limitKey) = true := hq
    obtain ⟨_, h2⟩ := iterLoop_pinned store
      (natAttr { r with dict := set_props r r.dict (store (hrefStr r) (build_params r)) } sizeKey + 2)
      { r with dict := set_props r r.dict (store (hrefStr r) (build_params r)) }
      (itemsList { r with dict := set_props r r.dict (store (hrefStr r) (build_params r)) })
      (natAttr { r with dict := set_props r r.dict (store (hrefStr r) (build_params r)) } offsetKey)
      (natAttr { r with dict := set_props r r.dict (store (hrefStr r) (build_params r)) } limitKey)
      hq1
    simp only [h2]

  · intro i
    unfold getIndex
    rw [ensure_data_not_new store r hnew]

/-- The collection `query(offset=5, limit=3)` builds, over a store that
answers every fetch with an empty page of a size-10 collection. -/
def c3coll : RState :=
  (queryOp (collectionFromHref (pyStr "E") (pyStr "h"))
    [(offsetKey, V.vnat 5), (limitKey, V.vnat 3)]).1

def c3store : Store := fun _ _ =>
  [(offsetKey, V.vnat 5), (limitKey, V.vnat 3), (sizeKey, V.vnat 10), (itemsKey, V.vlist [])]

/-- Claim C3 as stated is false: two iteration passes over the
explicit-window collection issue two fetch calls in total (one per pass,
from the unguarded `_ensure_data`), exceeding the claimed lifetime bound of
one. -/
theorem C3_counterexample :
    (iterPass c3store c3coll).2.2 +
      (iterPass c3store (iterPass c3store c3coll).2.1).2.2 = 2 ∧
    ¬ (2 : Nat) ≤ 1 :=
  ⟨rfl, by decide⟩

/-- Witness for `C3_explicit_window` at the concrete explicit-window
collection of `C3_counterexample`. -/
theorem C3_explicit_window_witness :
    get_next_page c3store c3coll 0 25 = ([], c3coll, 0) ∧
    (iterPass c3store c3coll).2.2 = 1 ∧
    (getIndex c3store c3coll 0).2.2 = 1 :=
  ⟨(C3_explicit_window c3store c3coll (by decide) (by rfl)).1 0 25,
   (C3_explicit_window c3store c3coll (by decide) (by rfl)).2.1,
   (C3_explicit_window c3store c3coll (by decide) (by rfl)).2.2 0⟩

/-! ## Claims C8 and C10: slicing -/

/-- The view `collection[start:stop]` builds on a fresh collection over the
canonical paginated remote. -/
def sliceOf (remote : List V) (L : Nat) (cls h : List Nat) (a b : Option Nat) : RState :=
  (getSlice (pageStore remote L) (collectionFromHref cls h) a b).1

/-- Claim C8: slicing `[a:b)` with `a < b` records
`_sliced_size = min(limit, max(0, size - offset)) = min (b-a) (size-a)`
(the parent's authoritative size is the remote length the fetch reports),
and `length()` reports that sliced size instead of the full size.  At the
claim's instances: size 10 gives `min 6 8 = 6`, size 5 gives `min 6 3 = 3`. -/
theorem C8_slice (remote : List V) (L : Nat) (cls h : List Nat) (a b : Nat) (hab : a < b) :
    lookupA (sliceOf remote L cls h (some a) (some b)).dict slicedKey =
      some (V.vnat (min (b - a) (remote.length - a))) ∧
    (lenOp (pageStore remote L) (sliceOf remote L cls h (some a) (some b))).1 =
      min (b - a) (remote.length - a) := by
  have hb : ((some b : Option Nat).getD 0 ≠ 0 ∧
      (some a : Option Nat).getD 0 < (some b : Option Nat).getD 0) := by
    simp only [Option.getD]
    omega
  constructor
  · simp only [sliceOf, getSlice]
    rw [if_pos hb]
    rfl
  · simp only [sliceOf, getSlice]
    rw [if_pos hb]
    rfl

/-- Witness for `C8_slice`: `[2:8]` on a size-10 collection reports 6, and
on a size-5 collection reports 3. -/
theorem C8_slice_witness :
    (lenOp (pageStore (List.replicate 10 (V.vnat 7)) 25)
      (sliceOf (List.replicate 10 (V.vnat 7)) 25 (pyStr "E") (pyStr "h")
        (some 2) (some 8))).1 = 6 ∧
    (lenOp (pageStore (List.replicate 5 (V.vnat 7)) 25)
      (sliceOf (List.replicate 5 (V.vnat 7)) 25 (pyStr "E") (pyStr "h")
        (some 2) (some 8))).1 = 3 :=
  ⟨(C8_slice (List.replicate 10 (V.vnat 7)) 25 (pyStr "E") (pyStr "h") 2 8 (by decide)).2,
   (C8_slice (List.replicate 5 (V.vnat 7)) 25 (pyStr "E") (pyStr "h") 2 8 (by decide)).2⟩

/-- Claim C10: a slice whose stop bound is absent, zero, or not above the
start pins only `offset = a` in the derived query (no `limit`), records
`_sliced_size = min(size, size - a) = size - a`, and `length()` reports
`max(0, size - a)`; in particular `collection[2:2]` on a size-10 collection
reports 8. -/
theorem C10_open_slice (remote : List V) (L : Nat) (cls h : List Nat) (a : Nat)
    (b : Option Nat) (hb : b.getD 0 = 0 ∨ b.getD 0 ≤ a) :
    (sliceOf remote L cls h (some a) b).query = some [(offsetKey, V.vnat a)] ∧
    lookupA (sliceOf remote L cls h (some a) b).dict slicedKey =
      some (V.vnat (min remote.length (remote.length - a))) ∧
    (lenOp (pageStore remote L) (sliceOf remote L cls h (some a) b)).1 =
      remote.length - a := by
  have hcond : ¬ (b.getD 0 ≠ 0 ∧ (some a : Option Nat).getD 0 < b.getD 0) := by
    rcases hb with h | h
    · exact fun hx => hx.1 h
    · intro hx
      have hx2 : a < b.getD 0 := hx.2
      omega
  refine ⟨?_, ?_, ?_⟩
  · simp only [sliceOf, getSlice]
    rw [if_neg hcond]
    rfl
  · simp only [sliceOf, getSlice]
    rw [if_neg hcond]
    rfl
  · have h1 : (lenOp (pageStore remote L) (sliceOf remote L cls h (some a) b)).1 =
        min remote.length (remote.length - a) := by
      simp only [sliceOf, getSlice]
      rw [if_neg hcond]
      rfl
    rw [h1]
    exact min_eq_right (Nat.sub_le _ _)

/-- Witness for `C10_open_slice`: the empty slice `[2:2]` on a size-10
collection reports length 8, not 0, and pins only the offset. -/
theorem C10_open_slice_witness :
    (sliceOf (List.replicate 10 (V.vnat 7)) 25 (pyStr "E") (pyStr "h")
        (some 2) (some 2)).query = some [(offsetKey, V.vnat 2)] ∧
    (lenOp (pageStore (List.replicate 10 (V.vnat 7)) 25)
      (sliceOf (List.replicate 10 (V.vnat 7)) 25 (pyStr "E") (pyStr "h")
        (some 2) (some 2))).1 = 8 :=
  ⟨(C10_open_slice (List.replicate 10 (V.vnat 7)) 25 (pyStr "E") (pyStr "h") 2
      (some 2) (by simp)).1,
   (C10_open_slice (List.replicate 10 (V.vnat 7)) 25 (pyStr "E") (pyStr "h") 2
      (some 2) (by simp)).2.2⟩

/-! ## Claim C2: pagination -/

/-- The iteration loop does nothing on an empty window. -/
theorem iterLoop_nil (store : Store) (fuel : Nat) (r : RState) (off lim : Nat) :
    iterLoop store fuel r [] off lim = ([], r, 0) := by
  cases fuel <;> rfl

/-- `_get_next_page` past the end of the collection: empty, no fetch, no
state change (whether or not the query is pinned). -/
theorem gnp_spent (store : Store) (r : RState) (off lim : Nat)
    (hle : natAttr r sizeKey ≤ off) :
    get_next_page store r off lim = ([], r, 0) := by
  unfold get_next_page
  by_cases hp : (hasKeyA (r.query.getD []) offsetKey || hasKeyA (r.query.getD []) limitKey) = true
  · rw [if_pos hp]
  · rw [if_neg hp, if_pos hle]

/-- The `__dict__` after `_get_next_page` appended the wrapped page `w`:
`items` extended, recorded `limit` grown by the page length. -/
def gnpDict (r : RState) (w : List V) : List (List Nat × V) :=
  insertA (insertA r.dict itemsKey (V.vlist (itemsList r ++ w))) limitKey
    (V.vnat (natAttr r limitKey + w.length))

/-- `_get_next_page` against the canonical paginated remote, on a clean
(unpinned) query and within range: it fetches exactly the window
`[off, off+lim)`, wraps it, and leaves query, element class, and the
recorded `size` intact. -/
theorem gnp_pageStore (remote : List V) (L : Nat) (cls : List Nat) (r : RState)
    (off lim : Nat) (hq : r.query = none) (hcls : r.elemCls = some cls)
    (hsz : lookupA r.dict sizeKey = some (V.vnat remote.length))
    (hlt : off < remote.length) :
    ∃ r1 : RState,
      get_next_page (pageStore remote L) r off lim =
        (((remote.drop off).take lim).map (wrap_resource_attr cls), r1, 1) ∧
      r1.query = none ∧ r1.elemCls = some cls ∧
      lookupA r1.dict sizeKey = some (V.vnat remote.length) := by
  have hna : natAttr r sizeKey = remote.length := by
    unfold natAttr
    rw [hsz]
  refine ⟨{ r with dict := gnpDict r (((remote.drop off).take lim).map (wrap_resource_attr cls)) }, ?_, hq, hcls, ?_⟩
  · unfold get_next_page
    rw [hq]
    rw [if_neg (by decide)]
    rw [hna]
    rw [if_neg (by omega)]
    rw [hcls]
    rfl
  · show lookupA (gnpDict r _) sizeKey = _
    unfold gnpDict
    rw [lookupA_insertA_ne _ _ _ _ (by decide), lookupA_insertA_ne _ _ _ _ (by decide)]
    exact hsz

/-- The iteration loop against the canonical paginated remote: starting at
`off` with the window `[off, off+L)` loaded, it yields the whole remainder
`remote.drop off` in order and fetches `(size - off - 1) / L` further
pages. -/
theorem iterLoop_pageStore (remote : List V) (L : Nat) (cls : List Nat) (hL : 1 ≤ L) :
    ∀ (fuel off : Nat) (r : RState), r.query = none → r.elemCls = some cls →
      lookupA r.dict sizeKey = some (V.vnat remote.length) →
      remote.length - off < fuel →
      (iterLoop (pageStore remote L) fuel r
          (((remote.drop off).take L).map (wrap_resource_attr cls)) off L).1 =
        (remote.drop off).map (wrap_resource_attr cls) ∧
      (iterLoop (pageStore remote L) fuel r
          (((remote.drop off).take L).map (wrap_resource_attr cls)) off L).2.2 =
        (remote.length - off - 1) / L := by
  intro fuel
  induction fuel with
  | zero => intro off r _ _ _ hb; exact absurd hb (Nat.not_lt_zero _)
  | succ fuel ih =>
    intro off r hq hcls hsz hb
    by_cases hoff : remote.length ≤ off
    · have hdrop : remote.drop off = [] := List.drop_eq_nil_of_le hoff
      rw [hdrop, List.take_nil, List.map_nil, iterLoop_nil]
      refine ⟨rfl, ?_⟩
      have h0 : remote.length - off - 1 = 0 := by omega
      rw [h0, Nat.zero_div]
    · push_neg at hoff
      have hlen : ((((remote.drop off).take L).map (wrap_resource_attr cls)).length) =
          min L (remote.length - off) := by
        simp [List.length_take, List.length_drop]
      have hempty : ¬ ((((remote.drop off).take L).map
          (wrap_resource_attr cls)).isEmpty = true) := by
        rw [List.isEmpty_iff_length_eq_zero, hlen]
        omega
      rw [iterLoop_succ, if_neg hempty]
      by_cases hsmall : remote.length - off < L
      · have hlt : ((((remote.drop off).take L).map (wrap_resource_attr cls)).length) < L := by
          rw [hlen]
          omega
        rw [if_pos hlt]
        have htake : (remote.drop off).take L = remote.drop off :=
          List.take_of_length_le (by rw [List.length_drop]; omega)
        refine ⟨by rw [htake], ?_⟩
        rw [Nat.div_eq_of_lt (by omega)]
      · push_neg at hsmall
        have hlenL : ((((remote.drop off).take L).map (wrap_resource_attr cls)).length) = L := by
          rw [hlen]
          omega
        rw [hlenL, if_neg (lt_irrefl L)]
        by_cases hend : remote.length ≤ off + L
        · rw [gnp_spent (pageStore remote L) r (off + L) L (by
            unfold natAttr
            rw [hsz]
            exact hend)]
          dsimp only
          rw [iterLoop_nil]
          have htake : (remote.drop off).take L = remote.drop off :=
            List.take_of_length_le (by rw [List.length_drop]; omega)
          refine ⟨by rw [htake, List.append_nil], ?_⟩
          show 0 + 0 = (remote.length - off - 1) / L
          rw [Nat.div_eq_of_lt (by omega)]
        · push_neg at hend
          obtain ⟨r1, hgnp, hq1, hcls1, hsz1⟩ :=
            gnp_pageStore remote L cls r (off + L) L hq hcls hsz hend
          rw [hgnp]
          dsimp only
          obtain ⟨ih1, ih2⟩ := ih (off + L) r1 hq1 hcls1 hsz1 (by omega)
          rw [ih1, ih2]
          have hsplit : (remote.drop off).take L ++ remote.drop (off + L) = remote.drop off := by
            rw [← List.drop_drop]
            exact List.take_append_drop L (remote.drop off)
          constructor
          · rw [← List.map_append, hsplit]
          · have harr : remote.length - off - 1 = (remote.length - (off + L) - 1) + L := by
              omega
            rw [harr, Nat.add_div_right _ (by omega : 0 < L)]
            omega

/-- `max 1 ⌈N / L⌉` written with natural division. -/
theorem ceil_count (N L : Nat) (hL : 1 ≤ L) :
    1 + (N - 1) / L = max 1 ((N + L - 1) / L) := by
  cases N with
  | zero =>
    have h1 : (0 : Nat) - 1 = 0 := rfl
    have h2 : 0 + L - 1 = L - 1 := by omega
    rw [h1, h2, Nat.zero_div, Nat.div_eq_of_lt (by omega)]
    simp
  | succ n =>
    have h1 : n + 1 - 1 = n := by omega
    have h2 : n + 1 + L - 1 = n + L := by omega
    rw [h1, h2, Nat.add_div_right n (by omega : 0 < L)]
    have h3 : max 1 (n / L + 1) = n / L + 1 := max_eq_right (Nat.le_add_left 1 (n / L))
    rw [h3]
    exact Nat.add_comm 1 (n / L)

/-- A fresh collection over the canonical paginated remote after its first
materialization: its window is the first page `[0, L)` and its recorded
`limit` is `L`. -/
def c2coll (remote : List V) (L : Nat) (cls h : List Nat) : RState :=
  (ensure_data (pageStore remote L) (collectionFromHref cls h)).1

/-- The `__dict__` of a freshly materialized collection over the canonical
paginated remote: the locator, the first window's bounds, the authoritative
size, and the wrapped first page. -/
def c2dict (remote : List V) (L : Nat) (cls h : List Nat) : List (List Nat × V) :=
  [(hrefKey, V.vstr h), (offsetKey, V.vnat 0), (limitKey, V.vnat L),
   (sizeKey, V.vnat remote.length),
   (itemsKey, V.vlist ((remote.take L).map (wrap_resource_attr cls)))]

/-- Projections of one `__iter__` pass, by structure eta: the pass is the
loop run from the re-ensured state with the captured window bounds, one
`_ensure_data` fetch added, and the captured `limit` written back. -/
theorem iterPass_proj (store : Store) (r : RState) :
    (iterPass store r).1 = (iterLoop store (natAttr (ensure_data store r).1 sizeKey + 2)
      (ensure_data store r).1 (itemsList (ensure_data store r).1)
      (natAttr (ensure_data store r).1 offsetKey) (natAttr (ensure_data store r).1 limitKey)).1 ∧
    (iterPass store r).2.2 = (ensure_data store r).2 +
      (iterLoop store (natAttr (ensure_data store r).1 sizeKey + 2) (ensure_data store r).1
        (itemsList (ensure_data store r).1) (natAttr (ensure_data store r).1 offsetKey)
        (natAttr (ensure_data store r).1 limitKey)).2.2 ∧
    (iterPass store r).2.1.dict = insertA
      (iterLoop store (natAttr (ensure_data store r).1 sizeKey + 2) (ensure_data store r).1
        (itemsList (ensure_data store r).1) (natAttr (ensure_data store r).1 offsetKey)
        (natAttr (ensure_data store r).1 limitKey)).2.1.dict limitKey
      (V.vnat (natAttr (ensure_data store r).1 limitKey)) :=
  ⟨rfl, rfl, rfl⟩

set_option maxHeartbeats 1000000 in
/-- Claim C2 (amended): one full iteration pass over a materialized
collection of remote size `N` with page width `L` yields all `N` elements
in the original remote order and restores the recorded `limit` to its
pre-pass value `L`, but it issues `max 1 \u2308N/L\u2309` fetch calls — for `N ≥ 1`
that is exactly `\u2308N/L\u2309`, while for `N = 0` the unconditional `_ensure_data`
re-fetch still costs one call where the claim's `\u2308N/L\u2309` is zero. -/
theorem C2_pagination (remote : List V) (L : Nat) (cls h : List Nat) (hL : 1 ≤ L) :
    (iterPass (pageStore remote L) (c2coll remote L cls h)).1 =
      remote.map (wrap_resource_attr cls) ∧
    (iterPass (pageStore remote L) (c2coll remote L cls h)).2.2 =
      max 1 ((remote.length + L - 1) / L) ∧
    lookupA (c2coll remote L cls h).dict limitKey = some (V.vnat L) ∧
    lookupA (iterPass (pageStore remote L) (c2coll remote L cls h)).2.1.dict limitKey =
      some (V.vnat L) := by
  -- the construction state
  have hc0dict : (collectionFromHref cls h).dict = [(hrefKey, V.vstr h)] := rfl
  have hnew0 : is_new (collectionFromHref cls h) = false := by
    unfold is_new
    rw [hc0dict]
    rfl
  have hhref0 : hrefStr (collectionFromHref cls h) = h := by
    unfold hrefStr
    rw [hc0dict]
    rfl
  have hbp0 : build_params (collectionFromHref cls h) = none := rfl
  -- the first materialization
  have hc1 : (c2coll remote L cls h).dict = c2dict remote L cls h := by
    show ((ensure_data (pageStore remote L) (collectionFromHref cls h)).1).dict = _
    rw [ensure_data_not_new _ _ hnew0]
    show set_props (collectionFromHref cls h) (collectionFromHref cls h).dict
        (pageStore remote L (hrefStr (collectionFromHref cls h))
          (build_params (collectionFromHref cls h))) = _
    rw [hhref0, hbp0, hc0dict]
    rfl
  have hq1 : (c2coll remote L cls h).query = none := by
    show ((ensure_data (pageStore remote L) (collectionFromHref cls h)).1).query = _
    rw [ensure_data_not_new _ _ hnew0]
    rfl
  have hex1 : (c2coll remote L cls h).expand = none := by
    show ((ensure_data (pageStore remote L) (collectionFromHref cls h)).1).expand = _
    rw [ensure_data_not_new _ _ hnew0]
    rfl
  have hnew1 : is_new (c2coll remote L cls h) = false := by
    unfold is_new
    rw [hc1]
    rfl
  have hhref1 : hrefStr (c2coll remote L cls h) = h := by
    unfold hrefStr
    rw [hc1]
    rfl
  have hbp1 : build_params (c2coll remote L cls h) =
      some [(limitKey, V.vnat L), (offsetKey, V.vnat 0)] := by
    unfold build_params
    rw [hq1, hex1, hc1]
    rfl
  -- the re-fetch at the head of the pass reloads the same window
  have hr1dict : ((ensure_data (pageStore remote L) (c2coll remote L cls h)).1).dict =
      c2dict remote L cls h := by
    rw [ensure_data_not_new _ _ hnew1]
    show set_props (c2coll remote L cls h) (c2coll remote L cls h).dict
        (pageStore remote L (hrefStr (c2coll remote L cls h))
          (build_params (c2coll remote L cls h))) = _
    rw [hhref1, hbp1, hc1]
    rfl
  have hr1q : ((ensure_data (pageStore remote L) (c2coll remote L cls h)).1).query = none := by
    rw [ensure_data_not_new _ _ hnew1]
    exact hq1
  have hr1cls : ((ensure_data (pageStore remote L) (c2coll remote L cls h)).1).elemCls =
      some cls := by
    rw [ensure_data_not_new _ _ hnew1]
    show (c2coll remote L cls h).elemCls = some cls
    show ((ensure_data (pageStore remote L) (collectionFromHref cls h)).1).elemCls = _
    rw [ensure_data_not_new _ _ hnew0]
    rfl
  have hr1sz : lookupA ((ensure_data (pageStore remote L) (c2coll remote L cls h)).1).dict
      sizeKey = some (V.vnat remote.length) := by
    rw [hr1dict]
    rfl
  have hn0 : (ensure_data (pageStore remote L) (c2coll remote L cls h)).2 = 1 := by
    rw [ensure_data_not_new _ _ hnew1]
  -- captured window bounds
  have hszN : natAttr (ensure_data (pageStore remote L) (c2coll remote L cls h)).1 sizeKey =
      remote.length := by
    unfold natAttr
    rw [hr1sz]
  have hoffN : natAttr (ensure_data (pageStore remote L) (c2coll remote L cls h)).1 offsetKey =
      0 := by
    unfold natAttr
    rw [hr1dict]
    rfl
  have hlimN : natAttr (ensure_data (pageStore remote L) (c2coll remote L cls h)).1 limitKey =
      L := by
    unfold natAttr
    rw [hr1dict]
    rfl
  have hitems : itemsList (ensure_data (pageStore remote L) (c2coll remote L cls h)).1 =
      ((remote.drop 0).take L).map (wrap_resource_attr cls) := by
    unfold itemsList
    rw [hr1dict]
    rfl
  obtain ⟨hp1, hp2, hp3⟩ := iterPass_proj (pageStore remote L) (c2coll remote L cls h)
  obtain ⟨ihy, ihc⟩ := iterLoop_pageStore remote L cls hL (remote.length + 2) 0
    (ensure_data (pageStore remote L) (c2coll remote L cls h)).1 hr1q hr1cls hr1sz (by omega)
  refine ⟨?_, ?_, ?_, ?_⟩
  · rw [hp1, hszN, hoffN, hlimN, hitems, ihy, List.drop_zero]
  · rw [hp2, hn0, hszN, hoffN, hlimN, hitems, ihc]
    simp only [Nat.sub_zero]
    exact ceil_count remote.length L hL
  · rw [hc1]
    rfl
  · rw [hp3, hlimN, hszN, hoffN, hitems]
    exact lookupA_insertA_self _ _ _

/-- Claim C2 as stated is false at `N = 0`: one pass over an (already
materialized) empty collection issues one fetch call — the unguarded
`_ensure_data` one — while the claimed count `⌈0/L⌉` is zero. -/
theorem C2_counterexample :
    (iterPass (pageStore ([] : List V) 25) (c2coll [] 25 (pyStr "E") (pyStr "h"))).2.2 = 1 ∧
    ((0 : Nat) + 25 - 1) / 25 = 0 ∧
    (1 : Nat) ≠ 0 :=
  ⟨rfl, by decide, by decide⟩

/-- Witness for `C2_pagination`: three elements with page width two are
yielded in order with `⌈3/2⌉ = 2` fetch calls. -/
theorem C2_pagination_witness :
    (iterPass (pageStore [V.vnat 1, V.vnat 2, V.vnat 3] 2)
        (c2coll [V.vnat 1, V.vnat 2, V.vnat 3] 2 (pyStr "E") (pyStr "h"))).1 =
      ([V.vnat 1, V.vnat 2, V.vnat 3]).map (wrap_resource_attr (pyStr "E")) ∧
    (iterPass (pageStore [V.vnat 1, V.vnat 2, V.vnat 3] 2)
        (c2coll [V.vnat 1, V.vnat 2, V.vnat 3] 2 (pyStr "E") (pyStr "h"))).2.2 = 2 :=
  ⟨(C2_pagination [V.vnat 1, V.vnat 2, V.vnat 3] 2 (pyStr "E") (pyStr "h") (by decide)).1,
   (C2_pagination [V.vnat 1, V.vnat 2, V.vnat 3] 2 (pyStr "E") (pyStr "h") (by decide)).2.1⟩

end Stormpath
